import Mathlib

/-!
Shallow embedding of the `files-mcp` filesystem MCP server
(`src/config.py` and `src/server.py`) and proofs about its
access-control engine.

Modelling conventions:
* A filesystem path is a list of segments (`List String`); the empty list is
  the filesystem root `/`.  Inputs are taken as absolute segment lists;
  `pathlib.PurePath` drops `"."` segments at construction but keeps `".."`,
  so the resolver below handles both.
* The filesystem is a finite association list from absolute canonical paths
  to nodes (`dir`, `file` with byte content, or `symlink` with an absolute
  target).  The root `[]` always exists and is a directory.
* `Path.resolve()` (POSIX, non-strict) is modelled by `resolvePath`:
  components are processed left to right, `".."` drops the last component of
  the already-resolved prefix, symlinks are followed with a gas bound that
  models the operating system's symlink-loop guard (`ELOOP`); gas exhaustion
  maps to the `symlinkLoop` error (pathlib raises on symlink loops).
* Text is a list of Unicode code points; `str.encode("utf-8")` /
  `read_text()` decoding are modelled by executable `encodeUtf8` /
  `decodeUtf8`.
* Python exceptions become an `Err` value; functions that mutate the
  filesystem return the (possibly unchanged) filesystem explicitly.
* `sorted(...)` (a stable sort by name within one directory) is modelled by
  `List.insertionSort`, which is also stable.
-/

namespace FilesMCP

/-- Kind of a filesystem node: directory, regular file with byte content, or
symbolic link with an (absolute) target path. -/
inductive NodeKind where
  | dir : NodeKind
  | file (content : List Nat) : NodeKind
  | symlink (target : List String) : NodeKind
deriving DecidableEq

/-- A filesystem: a finite association list from absolute canonical paths
(segment lists) to node kinds. -/
def Fs : Type := List (List String × NodeKind)

/-- Permission literal `"ro"` / `"rw"` from `config.py`. -/
inductive Perm where
  | ro : Perm
  | rw : Perm
deriving DecidableEq

/-- Reason carried by a `PermissionError` in `Config.validate_path`. -/
inductive PermReason where
  | readOnlyRoot : PermReason
  | outsideAllowed : PermReason
deriving DecidableEq

/-- Python exceptions raised by the server, by kind. -/
inductive Err where
  | permissionError (r : PermReason) : Err
  | fileNotFoundError : Err
  | notADirectoryError : Err
  | fileExistsError : Err
  | isADirectoryError : Err
  | valueTooLarge : Err
  | valueNotText : Err
  | symlinkLoop : Err
deriving DecidableEq

/-- The parsed configuration (`Config` in `config.py`): the insertion-ordered
`allowed_paths` dict and `max_file_size_bytes` (`none` = `NO_SIZE_LIMIT`). -/
structure Config where
  allowed_paths : List (List String × Perm)
  max_file_size_bytes : Option Nat

instance {ε α : Type} [DecidableEq ε] [DecidableEq α] :
    DecidableEq (Except ε α) := fun x y =>
  match x, y with
  | Except.error a, Except.error b =>
    if h : a = b then isTrue (by rw [h]) else isFalse (by intro hc; cases hc; exact h rfl)
  | Except.error _, Except.ok _ => isFalse (by intro hc; cases hc)
  | Except.ok _, Except.error _ => isFalse (by intro hc; cases hc)
  | Except.ok a, Except.ok b =>
    if h : a = b then isTrue (by rw [h]) else isFalse (by intro hc; cases hc; exact h rfl)

/-- Look up a path in the filesystem.  The root `[]` always exists and is a
directory. -/
def lookupFs (fs : Fs) (p : List String) : Option NodeKind :=
  if p = [] then some NodeKind.dir
  else match fs.find? (fun e => decide (e.1 = p)) with
    | some e => some e.2
    | none => none

/-- Last segment of a path: `PurePath.name` (the name of `/` is `""`). -/
def lastName : List String → String
  | [] => ""
  | [a] => a
  | _ :: rest => lastName rest

/-- Core of `Path.resolve()` (POSIX, non-strict): process the remaining
components against the already-resolved prefix `acc`, following symlinks.
`gas` models the operating system's bound on symlink traversals; it only
runs out on symlink loops (or absurdly long chains), where pathlib raises. -/
def resolveGo (fs : Fs) : Nat → List String → List String → Option (List String)
  | 0, _, _ => none
  | Nat.succ g, acc, rem =>
    match rem with
    | [] => some acc
    | c :: rest =>
      if c = "." then resolveGo fs g acc rest
      else if c = ".." then resolveGo fs g acc.dropLast rest
      else match lookupFs fs (acc ++ [c]) with
        | some (NodeKind.symlink tgt) =>
          match resolveGo fs g [] tgt with
          | none => none
          | some base => resolveGo fs g base rest
        | _ => resolveGo fs g (acc ++ [c]) rest

/-- `Path.resolve()` (non-strict): `none` models the symlink-loop failure. -/
def resolvePath (fs : Fs) (p : List String) : Option (List String) :=
  resolveGo fs (40 * (p.length + 2)) [] p

/-- `Path.exists()`: follows symlinks; `False` on broken links and on
`OSError` (e.g. a symlink loop). -/
def existsFs (fs : Fs) (p : List String) : Bool :=
  match resolvePath fs p with
  | some r => (lookupFs fs r).isSome
  | none => false

/-- `Path.relative_to` succeeds on absolute paths exactly when the root's
segments are a prefix of the target's segments. -/
def isPrefixSeg : List String → List String → Bool
  | [], _ => true
  | _ :: _, [] => false
  | a :: as, b :: bs => a == b && isPrefixSeg as bs

/-- Read-intent resolution in `Config.validate_path`: the path must exist,
then it is fully resolved. -/
def resolveRead (fs : Fs) (p : List String) : Except Err (List String) :=
  if existsFs fs p = false then Except.error Err.fileNotFoundError
  else match resolvePath fs p with
    | none => Except.error Err.symlinkLoop
    | some r => Except.ok r

/-- Write-intent resolution in `Config.validate_path`: if the full path
exists resolve it fully; else if the (lexical) parent exists resolve the
parent and re-append `path_obj.name` verbatim; else resolve best-effort. -/
def resolveWrite (fs : Fs) (p : List String) : Except Err (List String) :=
  if existsFs fs p then
    match resolvePath fs p with
    | none => Except.error Err.symlinkLoop
    | some r => Except.ok r
  else if existsFs fs p.dropLast then
    match resolvePath fs p.dropLast with
    | none => Except.error Err.symlinkLoop
    | some r => Except.ok (r ++ [lastName p])
  else
    match resolvePath fs p with
    | none => Except.error Err.symlinkLoop
    | some r => Except.ok r

/-- The resolution phase of `Config.validate_path`, selected by
`require_write`. -/
def resolveIntent (fs : Fs) (p : List String) (require_write : Bool) :
    Except Err (List String) :=
  if require_write then resolveWrite fs p else resolveRead fs p

/-- The containment loop of `Config.validate_path`: iterate
`self.allowed_paths.items()` in configuration order; on the first root whose
segments are a prefix of `requested`, either deny (write on a read-only
root) or return `requested`; if no root matches, deny as outside. -/
def checkRoots (roots : List (List String × Perm)) (requested : List String)
    (require_write : Bool) : Except Err (List String) :=
  match roots with
  | [] => Except.error (Err.permissionError PermReason.outsideAllowed)
  | (dir, perm) :: rest =>
    if isPrefixSeg dir requested then
      if require_write && decide (perm = Perm.ro) then
        Except.error (Err.permissionError PermReason.readOnlyRoot)
      else Except.ok requested
    else checkRoots rest requested require_write

/-- `Config.validate_path` from `config.py`: resolve the input according to
the intent, then run the containment/permission loop. -/
def validate_path (fs : Fs) (cfg : Config) (p : List String)
    (require_write : Bool) : Except Err (List String) :=
  match resolveIntent fs p require_write with
  | Except.error e => Except.error e
  | Except.ok requested => checkRoots cfg.allowed_paths requested require_write

/-- UTF-8 encoding of one code point (`str.encode("utf-8")`). -/
def encodeUtf8Char (c : Nat) : List Nat :=
  if c < 0x80 then [c]
  else if c < 0x800 then [0xC0 + c / 0x40, 0x80 + c % 0x40]
  else if c < 0x10000 then
    [0xE0 + c / 0x1000, 0x80 + c / 0x40 % 0x40, 0x80 + c % 0x40]
  else
    [0xF0 + c / 0x40000, 0x80 + c / 0x1000 % 0x40, 0x80 + c / 0x40 % 0x40,
      0x80 + c % 0x40]

/-- UTF-8 encoding of a string of code points. -/
def encodeUtf8 (s : List Nat) : List Nat :=
  s.foldr (fun c acc => encodeUtf8Char c ++ acc) []

/-- Whether a byte is a UTF-8 continuation byte (`0x80`–`0xBF`). -/
def isCont (b : Nat) : Bool :=
  decide (0x80 ≤ b) && decide (b < 0xC0)

/-- Strict UTF-8 decoding (Python's default `read_text()` codec): `none`
models `UnicodeDecodeError`.  Rejects stray continuation bytes, overlong
forms, surrogates and out-of-range code points. -/
def decodeUtf8 : List Nat → Option (List Nat)
  | [] => some []
  | b :: rest =>
    if b < 0x80 then (decodeUtf8 rest).map (fun cs => b :: cs)
    else if b < 0xC2 then none
    else if b < 0xE0 then
      match rest with
      | b1 :: rest1 =>
        if isCont b1 then
          (decodeUtf8 rest1).map (fun cs => ((b - 0xC0) * 0x40 + (b1 - 0x80)) :: cs)
        else none
      | _ => none
    else if b < 0xF0 then
      match rest with
      | b1 :: b2 :: rest2 =>
        let cp := (b - 0xE0) * 0x1000 + (b1 - 0x80) * 0x40 + (b2 - 0x80)
        if isCont b1 && isCont b2 && decide (0x800 ≤ cp) &&
            !(decide (0xD800 ≤ cp) && decide (cp < 0xE000)) then
          (decodeUtf8 rest2).map (fun cs => cp :: cs)
        else none
      | _ => none
    else if b < 0xF5 then
      match rest with
      | b1 :: b2 :: b3 :: rest3 =>
        let cp := (b - 0xF0) * 0x40000 + (b1 - 0x80) * 0x1000 +
          (b2 - 0x80) * 0x40 + (b3 - 0x80)
        if isCont b1 && isCont b2 && isCont b3 && decide (0x10000 ≤ cp) &&
            decide (cp < 0x110000) then
          (decodeUtf8 rest3).map (fun cs => cp :: cs)
        else none
      | _ => none
    else none

/-- The size-limit comparison shared (textually duplicated) by `read_file`
and `write_file`: `if config.max_file_size_bytes:` (Python truthiness, so
`None` and `0` disable the check) followed by `size > limit`. -/
def sizeCheckFails (limit : Option Nat) (size : Nat) : Bool :=
  match limit with
  | none => false
  | some n => if n = 0 then false else decide (size > n)

/-- Resolve a path and read the node it denotes, when it is a regular
file. -/
def readBytes (fs : Fs) (p : List String) : Option (List Nat) :=
  match resolvePath fs p with
  | some r =>
    match lookupFs fs r with
    | some (NodeKind.file bs) => some bs
    | _ => none
  | none => none

/-- `Path.is_file()`: follows symlinks. -/
def isFileF (fs : Fs) (p : List String) : Bool :=
  (readBytes fs p).isSome

/-- `Path.is_dir()`: follows symlinks. -/
def isDirF (fs : Fs) (p : List String) : Bool :=
  match resolvePath fs p with
  | some r =>
    match lookupFs fs r with
    | some NodeKind.dir => true
    | _ => false
  | none => false

/-- Insert or overwrite a filesystem entry. -/
def setFs (fs : Fs) (p : List String) (k : NodeKind) : Fs :=
  if fs.any (fun e => decide (e.1 = p)) then
    fs.map (fun e => if e.1 = p then (p, k) else e)
  else (p, k) :: fs

/-- One step of `mkdir(parents=True, exist_ok=True)`: keep an existing
directory (`exist_ok`), create a missing one, fail on an existing
non-directory (a symlink is accepted when it points to a directory, since
`exist_ok` checks `is_dir()`). -/
def mkdirStep (acc : Fs) (pref : List String) : Except Err Fs :=
  match lookupFs acc pref with
  | some NodeKind.dir => Except.ok acc
  | some (NodeKind.file _) => Except.error Err.fileExistsError
  | some (NodeKind.symlink _) =>
    if isDirF acc pref then Except.ok acc else Except.error Err.fileExistsError
  | none => Except.ok ((pref, NodeKind.dir) :: acc)

/-- `file_path.parent.mkdir(parents=True, exist_ok=True)`: ensure every
prefix of `dir` is a directory, creating the missing ones; fails (without
creating anything below the blocker) when a prefix exists as a
non-directory. -/
def mkdirParents (fs : Fs) (dir : List String) : Except Err Fs :=
  dir.inits.foldlM mkdirStep fs

/-- `file_path.write_text(content)`: `open` follows symlinks to the final
target, refuses directories, and (re)creates the target as a regular file
with the encoded bytes. -/
def writeTextFs (fs : Fs) (p : List String) (bytes : List Nat) : Except Err Fs :=
  match resolvePath fs p with
  | none => Except.error Err.symlinkLoop
  | some rp =>
    match lookupFs fs rp with
    | some NodeKind.dir => Except.error Err.isADirectoryError
    | _ => Except.ok (setFs fs rp (NodeKind.file bytes))

/-- The `read_file` tool from `server.py`: validate, check existence and
file-ness, check the size limit against `stat().st_size`, then decode. -/
def read_file (fs : Fs) (cfg : Config) (p : List String) :
    Except Err (List Nat) :=
  match validate_path fs cfg p false with
  | Except.error e => Except.error e
  | Except.ok file_path =>
    if existsFs fs file_path = false then Except.error Err.fileNotFoundError
    else if isFileF fs file_path = false then Except.error Err.fileNotFoundError
    else
      let bytes := (readBytes fs file_path).getD []
      if sizeCheckFails cfg.max_file_size_bytes bytes.length then
        Except.error Err.valueTooLarge
      else match decodeUtf8 bytes with
        | some cs => Except.ok cs
        | none => Except.error Err.valueNotText

/-- The `write_file` tool from `server.py`: validate with write intent,
encode the content and check the size limit, create missing parent
directories, then write.  The first component is the resulting filesystem
(unchanged whenever an error occurs before a mutation step); the second is
the returned byte count or the raised error. -/
def write_file (fs : Fs) (cfg : Config) (p : List String)
    (content : List Nat) : Fs × Except Err Nat :=
  match validate_path fs cfg p true with
  | Except.error e => (fs, Except.error e)
  | Except.ok file_path =>
    let content_bytes := encodeUtf8 content
    let size := content_bytes.length
    if sizeCheckFails cfg.max_file_size_bytes size then
      (fs, Except.error Err.valueTooLarge)
    else
      match mkdirParents fs file_path.dropLast with
      | Except.error e => (fs, Except.error e)
      | Except.ok fs1 =>
        match writeTextFs fs1 file_path content_bytes with
        | Except.error e => (fs1, Except.error e)
        | Except.ok fs2 => (fs2, Except.ok size)

/-- Executable lexicographic comparison of character lists by code point —
exactly how Python compares the names of two paths sharing a parent. -/
def lexLE : List Char → List Char → Bool
  | [], _ => true
  | _ :: _, [] => false
  | a :: as, b :: bs =>
    if a.val < b.val then true
    else if b.val < a.val then false
    else lexLE as bs

theorem lexLE_iff (x y : List Char) : lexLE x y = true ↔ ¬ List.lt y x := by
  induction x generalizing y with
  | nil =>
    constructor
    · intro _ h; cases h
    · intro _; rfl
  | cons a as ih =>
    cases y with
    | nil =>
      constructor
      · intro h; simp [lexLE] at h
      · intro h; exact absurd (List.lt.nil a as) h
    | cons b bs =>
      show (if a.val < b.val then true
        else if b.val < a.val then false else lexLE as bs) = true ↔ _
      by_cases hab : a.val < b.val
      · rw [if_pos hab]
        constructor
        · intro _ h
          cases h with
          | head _ _ hlt => exact absurd hab (Nat.lt_asymm hlt)
          | tail h1 h2 _ => exact h2 hab
        · intro _; rfl
      · rw [if_neg hab]
        by_cases hba : b.val < a.val
        · rw [if_pos hba]
          constructor
          · intro h; simp at h
          · intro h; exact absurd (List.lt.head bs as hba) h
        · rw [if_neg hba]
          rw [ih bs]
          constructor
          · intro h hlt
            cases hlt with
            | head _ _ hlt' => exact hba hlt'
            | tail _ _ h3 => exact h h3
          · intro h hlt
            exact h (List.lt.tail hba hab hlt)

theorem string_le_iff (a b : String) :
    (a ≤ b) ↔ ¬ List.lt b.data a.data := by
  rw [String.le_iff_toList_le, ← not_lt, List.lt_iff_lex_lt]
  exact Iff.rfl

/-- Ordering used by `sorted(dir_path.iterdir())` restricted to entries of
one directory: `pathlib` paths with a common parent compare by name. -/
abbrev childLE (a b : String × NodeKind) : Prop := a.1 ≤ b.1

instance : DecidableRel childLE := fun a b =>
  decidable_of_iff (lexLE a.1.data b.1.data = true)
    ((lexLE_iff a.1.data b.1.data).trans (string_le_iff a.1 b.1).symm)

instance : IsTotal (String × NodeKind) childLE :=
  ⟨fun a b => le_total a.1 b.1⟩

instance : IsTrans (String × NodeKind) childLE :=
  ⟨fun _ _ _ h1 h2 => le_trans h1 h2⟩

/-- The entries of directory `p`: name and node kind of every filesystem
entry whose path is `p` plus one segment (`Path.iterdir()`). -/
def childPairs (fs : Fs) (p : List String) : List (String × NodeKind) :=
  fs.filterMap (fun e =>
    if e.1 ≠ [] ∧ e.1.dropLast = p then some (lastName e.1, e.2) else none)

/-- `sorted(dir_path.iterdir())`: the entries of `p` in ascending name
order (stable, like Python's sort). -/
def sortedChildren (fs : Fs) (p : List String) : List (String × NodeKind) :=
  List.insertionSort childLE (childPairs fs p)

/-- The `list_directory` tool from `server.py`: validate, check the target
is an existing directory, then list `{name, type}` entries in sorted order
(`item.is_dir()` follows symlinks). -/
def list_directory (fs : Fs) (cfg : Config) (p : List String) :
    Except Err (List (String × String)) :=
  match validate_path fs cfg p false with
  | Except.error e => Except.error e
  | Except.ok dir_path =>
    if existsFs fs dir_path = false then Except.error Err.fileNotFoundError
    else if isDirF fs dir_path = false then Except.error Err.notADirectoryError
    else
      Except.ok ((sortedChildren fs dir_path).map (fun c =>
        (c.1, if isDirF fs (dir_path ++ [c.1]) then "dir" else "file")))

/-- A node of the JSON tree built by `list_directory_tree.build_tree`.
`children = none` and `truncated = false` model the corresponding JSON keys
being absent. -/
inductive TreeNode where
  | mk (name : String) (type : String) (children : Option (List TreeNode))
      (truncated : Bool) (error : Option String) : TreeNode

/-- Name of a tree node. -/
def TreeNode.name : TreeNode → String
  | TreeNode.mk n _ _ _ _ => n

/-- Type tag (`"dir"` or `"file"`) of a tree node. -/
def TreeNode.type : TreeNode → String
  | TreeNode.mk _ t _ _ _ => t

/-- Children of a tree node (`none` = key absent). -/
def TreeNode.children : TreeNode → Option (List TreeNode)
  | TreeNode.mk _ _ c _ _ => c

/-- Truncation marker of a tree node (`false` = key absent). -/
def TreeNode.truncated : TreeNode → Bool
  | TreeNode.mk _ _ _ t _ => t

/-- One iteration of the `build_tree` loop body over a sorted directory
entry: symlinks are skipped, directories recurse (via the supplied subtree
builder `sub`), files become leaf nodes. -/
def buildStep (sub : String → TreeNode) (c : String × NodeKind) :
    Option TreeNode :=
  match c.2 with
  | NodeKind.symlink _ => none
  | NodeKind.dir => some (sub c.1)
  | NodeKind.file _ =>
    some (TreeNode.mk c.1 "file" none false none)

/-- `build_tree` restructured on the remaining depth
`max_depth + 1 - current_depth`: zero remaining depth is exactly the
source's `current_depth > max_depth` truncation case, and each recursive
call (`current_depth + 1`) has one less remaining depth.  The model's
filesystem has no permission bits, so the `PermissionError` branch that
sets the `error` field never fires. -/
def buildTreeGo (fs : Fs) : Nat → List String → TreeNode
  | 0, p => TreeNode.mk (lastName p) "dir" none true none
  | Nat.succ k, p =>
    TreeNode.mk (lastName p) "dir"
      (some ((sortedChildren fs p).filterMap
        (buildStep (fun n => buildTreeGo fs k (p ++ [n]))))) false none

/-- `list_directory_tree.build_tree` from `server.py`, with the source's
`(max_depth, current_depth)` signature. -/
def build_tree (fs : Fs) (max_depth : Nat) (p : List String)
    (current_depth : Nat) : TreeNode :=
  buildTreeGo fs (max_depth + 1 - current_depth) p

/-- `max(1, min(max_depth, 10))` on the caller-supplied integer. -/
def clampDepth (md : Int) : Nat :=
  (max 1 (min md 10)).toNat

/-- The `list_directory_tree` tool from `server.py`: validate, check the
target is an existing directory, clamp the depth, then walk. -/
def list_directory_tree (fs : Fs) (cfg : Config) (p : List String)
    (max_depth : Int) : Except Err TreeNode :=
  match validate_path fs cfg p false with
  | Except.error e => Except.error e
  | Except.ok dir_path =>
    if existsFs fs dir_path = false then Except.error Err.fileNotFoundError
    else if isDirF fs dir_path = false then Except.error Err.notADirectoryError
    else Except.ok (build_tree fs (clampDepth max_depth) dir_path 0)

/-- Whether a node kind is a symlink. -/
def isSymlinkKind : NodeKind → Bool
  | NodeKind.symlink _ => true
  | _ => false

/-- The filesystem with every symlink entry removed. -/
def eraseSymlinks (fs : Fs) : Fs :=
  fs.filter (fun e => !isSymlinkKind e.2)

mutual

/-- Height (number of node levels) of a tree node. -/
def nodeHeight : TreeNode → Nat
  | TreeNode.mk _ _ cs _ _ => 1 + childrenHeight cs

/-- Height of an optional child list. -/
def childrenHeight : Option (List TreeNode) → Nat
  | none => 0
  | some l => listHeight l

/-- Maximum height over a list of tree nodes. -/
def listHeight : List TreeNode → Nat
  | [] => 0
  | t :: ts => Nat.max (nodeHeight t) (listHeight ts)

end

/-! ### Concrete fixtures used by witnesses and counterexamples -/

/-- A small filesystem with one allowed data directory and an outside
`/etc`. -/
def fsA : Fs :=
  [(["srv"], NodeKind.dir),
   (["srv", "data"], NodeKind.dir),
   (["srv", "data", "b.txt"], NodeKind.file [104, 105]),
   (["srv", "data", "a"], NodeKind.dir),
   (["srv", "data", "big.bin"], NodeKind.file [255, 255, 255]),
   (["srv", "data", "bin1"], NodeKind.file [255]),
   (["etc"], NodeKind.dir),
   (["etc", "passwd"], NodeKind.file [114])]

/-- Configuration allowing `/srv/data` read-write with a 2-byte limit. -/
def cfgA : Config := ⟨[(["srv", "data"], Perm.rw)], some 2⟩

/-- Configuration allowing `/srv/data` read-write with no size limit. -/
def cfgU : Config := ⟨[(["srv", "data"], Perm.rw)], none⟩

/-- A filesystem with a single read-only root. -/
def fsRO : Fs := [(["pub"], NodeKind.dir)]

/-- Configuration with `/pub` read-only. -/
def cfgRO : Config := ⟨[(["pub"], Perm.ro)], some 10⟩

/-- A filesystem with nested directories `/n` and `/n/sub`. -/
def fsNested : Fs := [(["n"], NodeKind.dir), (["n", "sub"], NodeKind.dir)]

/-- Two nested configured roots with different permissions: the outer one
read-only and first in configuration order. -/
def cfgNested : Config :=
  ⟨[(["n"], Perm.ro), (["n", "sub"], Perm.rw)], some 10⟩

/-- A directory with a subdirectory, a sub-subdirectory and a file, for the
tree-walk claims. -/
def fsC6 : Fs :=
  [(["d"], NodeKind.dir),
   (["d", "sub"], NodeKind.dir),
   (["d", "sub", "deep"], NodeKind.dir),
   (["d", "f.txt"], NodeKind.file [97])]

/-- Configuration allowing `/d` read-write with no size limit. -/
def cfgC6 : Config := ⟨[(["d"], Perm.rw)], none⟩

/-! ### Helper lemmas -/

theorem isPrefixSeg_iff (a b : List String) :
    isPrefixSeg a b = true ↔ a <+: b := by
  induction a generalizing b with
  | nil => simp [isPrefixSeg]
  | cons x xs ih =>
    cases b with
    | nil => simp [isPrefixSeg]
    | cons y ys =>
      simp [isPrefixSeg, List.cons_prefix_cons, ih, Bool.and_eq_true]

theorem prefix_iff_eq_or_descendant (d r : List String) :
    d <+: r ↔ d = r ∨ ∃ s, s ≠ [] ∧ r = d ++ s := by
  constructor
  · rintro ⟨t, ht⟩
    cases t with
    | nil => left; simpa using ht
    | cons c cs => right; exact ⟨c :: cs, by simp, ht.symm⟩
  · rintro (rfl | ⟨s, _, rfl⟩)
    · exact List.prefix_refl d
    · exact ⟨s, rfl⟩

theorem checkRoots_eq_find (roots : List (List String × Perm))
    (req : List String) (w : Bool) :
    checkRoots roots req w =
      match roots.find? (fun x => isPrefixSeg x.1 req) with
      | none => Except.error (Err.permissionError PermReason.outsideAllowed)
      | some dp =>
        if w && decide (dp.2 = Perm.ro) then
          Except.error (Err.permissionError PermReason.readOnlyRoot)
        else Except.ok req := by
  induction roots with
  | nil => rfl
  | cons hd tl ih =>
    obtain ⟨d, pm⟩ := hd
    by_cases h : isPrefixSeg d req = true
    · rw [List.find?_cons_of_pos _ (by simpa using h)]
      simp [checkRoots, h]
    · rw [List.find?_cons_of_neg _ (by simpa using h)]
      simp only [checkRoots, h, Bool.false_eq_true, if_false, ih]

theorem checkRoots_ok (roots : List (List String × Perm))
    (req : List String) (w : Bool) (r : List String)
    (h : checkRoots roots req w = Except.ok r) :
    r = req ∧ ∃ d pm, (d, pm) ∈ roots ∧ isPrefixSeg d r = true := by
  rw [checkRoots_eq_find] at h
  split at h
  · simp at h
  · rename_i dp hf
    split at h
    · simp at h
    · have hr : r = req := by injection h with h'; exact h'.symm
      subst hr
      refine ⟨rfl, dp.1, dp.2, ?_, ?_⟩
      · have := List.mem_of_find?_eq_some hf; simpa using this
      · have := List.find?_some hf; simpa using this

theorem checkRoots_error_reason (roots : List (List String × Perm))
    (req : List String) (w : Bool) (e : Err)
    (h : checkRoots roots req w = Except.error e) :
    ∃ reason, e = Err.permissionError reason := by
  rw [checkRoots_eq_find] at h
  split at h
  · exact ⟨PermReason.outsideAllowed, by injection h with h'; exact h'.symm⟩
  · split at h
    · exact ⟨PermReason.readOnlyRoot, by injection h with h'; exact h'.symm⟩
    · simp at h

theorem existsFs_resolve (fs : Fs) (p : List String)
    (h : existsFs fs p = true) : ∃ r, resolvePath fs p = some r := by
  unfold existsFs at h
  cases hr : resolvePath fs p with
  | none => rw [hr] at h; simp at h
  | some r => exact ⟨r, rfl⟩

theorem resolveRead_error (fs : Fs) (p : List String) (e : Err)
    (h : resolveRead fs p = Except.error e) :
    e = Err.fileNotFoundError ∨ e = Err.symlinkLoop := by
  unfold resolveRead at h
  split at h
  · left; injection h with h'; exact h'.symm
  · split at h
    · right; injection h with h'; exact h'.symm
    · simp at h

theorem resolveWrite_error (fs : Fs) (p : List String) (e : Err)
    (h : resolveWrite fs p = Except.error e) : e = Err.symlinkLoop := by
  unfold resolveWrite at h
  split at h
  · split at h
    · injection h with h'; exact h'.symm
    · simp at h
  · split at h
    · split at h
      · injection h with h'; exact h'.symm
      · simp at h
    · split at h
      · injection h with h'; exact h'.symm
      · simp at h

theorem validate_path_error_kinds (fs : Fs) (cfg : Config) (p : List String)
    (w : Bool) (e : Err) (h : validate_path fs cfg p w = Except.error e) :
    e = Err.fileNotFoundError ∨ e = Err.symlinkLoop ∨
      ∃ reason, e = Err.permissionError reason := by
  unfold validate_path at h
  split at h
  · rename_i e' hri
    rw [h] at hri
    unfold resolveIntent at hri
    cases w with
    | true =>
      rw [if_pos rfl] at hri
      exact Or.inr (Or.inl (resolveWrite_error fs p e hri))
    | false =>
      rw [if_neg (by simp)] at hri
      rcases resolveRead_error fs p e hri with h1 | h1
      · exact Or.inl h1
      · exact Or.inr (Or.inl h1)
  · exact Or.inr (Or.inr (checkRoots_error_reason _ _ _ _ h))

theorem mkdirStep_error (acc : Fs) (pref : List String) (e : Err)
    (h : mkdirStep acc pref = Except.error e) : e = Err.fileExistsError := by
  unfold mkdirStep at h
  split at h
  · simp at h
  · injection h with h'; exact h'.symm
  · split at h
    · simp at h
    · injection h with h'; exact h'.symm
  · simp at h

theorem mkdirParents_error (l : List (List String)) (acc : Fs) (e : Err)
    (h : l.foldlM mkdirStep acc = Except.error e) :
    e = Err.fileExistsError := by
  induction l generalizing acc with
  | nil => simp [List.foldlM, pure, Except.pure] at h
  | cons a l ih =>
    rw [List.foldlM_cons] at h
    cases hs : mkdirStep acc a with
    | error e' =>
      rw [hs] at h
      simp only [Bind.bind, Except.bind] at h
      have he : e' = e := by simpa using h
      exact he ▸ mkdirStep_error acc a e' hs
    | ok acc' =>
      rw [hs] at h
      simp only [Bind.bind, Except.bind] at h
      exact ih acc' h

theorem writeTextFs_error (fs : Fs) (p : List String) (bytes : List Nat)
    (e : Err) (h : writeTextFs fs p bytes = Except.error e) :
    e = Err.symlinkLoop ∨ e = Err.isADirectoryError := by
  unfold writeTextFs at h
  split at h
  · left; injection h with h'; exact h'.symm
  · split at h
    · right; injection h with h'; exact h'.symm
    · simp at h

theorem read_file_of_file (fs : Fs) (cfg : Config) (p fp : List String)
    (bytes : List Nat)
    (hval : validate_path fs cfg p false = Except.ok fp)
    (hres : resolvePath fs fp = some fp)
    (hlk : lookupFs fs fp = some (NodeKind.file bytes)) :
    read_file fs cfg p =
      (if sizeCheckFails cfg.max_file_size_bytes bytes.length then
        Except.error Err.valueTooLarge
      else match decodeUtf8 bytes with
        | some cs => Except.ok cs
        | none => Except.error Err.valueNotText) := by
  have hrb : readBytes fs fp = some bytes := by
    simp only [readBytes, hres, hlk]
  have hex : existsFs fs fp = true := by
    simp only [existsFs, hres, hlk, Option.isSome_some]
  have hif : isFileF fs fp = true := by
    simp only [isFileF, hrb, Option.isSome_some]
  unfold read_file
  rw [hval]
  show (if existsFs fs fp = false then _ else _) = _
  rw [hex, if_neg (by simp), hif, if_neg (by simp), hrb]
  rfl

theorem read_file_tooLarge_inv (fs : Fs) (cfg : Config) (p : List String)
    (h : read_file fs cfg p = Except.error Err.valueTooLarge) :
    ∃ fp bytes, validate_path fs cfg p false = Except.ok fp ∧
      readBytes fs fp = some bytes ∧
      sizeCheckFails cfg.max_file_size_bytes bytes.length = true := by
  unfold read_file at h
  split at h
  · rename_i e hv
    have he : e = Err.valueTooLarge := by simpa using h
    rcases validate_path_error_kinds fs cfg p false e hv with h1 | h1 | ⟨r, h1⟩ <;>
      rw [he] at h1 <;> simp at h1
  · rename_i fp hval
    split at h
    · simp at h
    · split at h
      · simp at h
      · rename_i hne hnf
        have hif : isFileF fs fp = true := by
          cases hb : isFileF fs fp
          · exact absurd hb hnf
          · rfl
        obtain ⟨bytes, hrb⟩ : ∃ bytes, readBytes fs fp = some bytes := by
          unfold isFileF at hif
          cases hb : readBytes fs fp
          · rw [hb] at hif; simp at hif
          · exact ⟨_, rfl⟩
        rw [hrb] at h
        simp only [Option.getD_some] at h
        split at h
        · rename_i hsz
          exact ⟨fp, bytes, hval, hrb, by simpa using hsz⟩
        · split at h <;> simp at h

theorem sizeCheckFails_some_le (n m : Nat) (h : m ≤ n) :
    sizeCheckFails (some n) m = false := by
  show (if n = 0 then false else decide (m > n)) = false
  split
  · rfl
  · simp [show ¬ (m > n) from Nat.not_lt.mpr h]

theorem sizeCheckFails_some_gt (n m : Nat) (hn : n ≠ 0) (h : n < m) :
    sizeCheckFails (some n) m = true := by
  show (if n = 0 then false else decide (m > n)) = true
  rw [if_neg hn]
  simpa using h

theorem write_file_outcomes (fs : Fs) (cfg : Config) (p : List String)
    (content : List Nat) (fp : List String)
    (hval : validate_path fs cfg p true = Except.ok fp)
    (hsz : sizeCheckFails cfg.max_file_size_bytes
      (encodeUtf8 content).length = false) :
    (write_file fs cfg p content).2 = Except.ok (encodeUtf8 content).length ∨
    (write_file fs cfg p content).2 = Except.error Err.fileExistsError ∨
    (write_file fs cfg p content).2 = Except.error Err.isADirectoryError ∨
    (write_file fs cfg p content).2 = Except.error Err.symlinkLoop := by
  unfold write_file
  rw [hval]
  simp only [hsz, Bool.false_eq_true, if_false]
  cases hmk : mkdirParents fs fp.dropLast with
  | error e =>
    have he : e = Err.fileExistsError := mkdirParents_error _ _ _ hmk
    rw [he]
    exact Or.inr (Or.inl rfl)
  | ok fs1 =>
    dsimp only
    cases hwt : writeTextFs fs1 fp (encodeUtf8 content) with
    | error e =>
      rcases writeTextFs_error _ _ _ _ hwt with he | he <;> rw [he]
      · exact Or.inr (Or.inr (Or.inr rfl))
      · exact Or.inr (Or.inr (Or.inl rfl))
    | ok fs2 =>
      exact Or.inl rfl

theorem write_file_ne_tooLarge (fs : Fs) (cfg : Config) (p : List String)
    (content : List Nat)
    (hsz : ∀ m, sizeCheckFails cfg.max_file_size_bytes m = false) :
    (write_file fs cfg p content).2 ≠ Except.error Err.valueTooLarge := by
  intro hc
  unfold write_file at hc
  split at hc
  · rename_i e hv
    have he : e = Err.valueTooLarge := by simpa using hc
    rcases validate_path_error_kinds fs cfg p true e hv with h1 | h1 | ⟨r, h1⟩ <;>
      rw [he] at h1 <;> simp at h1
  · rename_i fp hv
    simp only [hsz, Bool.false_eq_true, if_false] at hc
    split at hc
    · rename_i e hmk
      have he : e = Err.valueTooLarge := by simpa using hc
      have hk := mkdirParents_error _ _ _ hmk
      rw [he] at hk; simp at hk
    · split at hc
      · rename_i e hwt
        have he : e = Err.valueTooLarge := by simpa using hc
        rcases writeTextFs_error _ _ _ _ hwt with h1 | h1 <;>
          rw [he] at h1 <;> simp at h1
      · simp at hc

/-- C1: for every input path and intent, if `validate_path` returns a path
rather than raising, the returned path is equal to or a descendant of some
configured allowed root (its segments extend a root's segments); and any
input whose resolved target lies outside every allowed root is refused with
a `PermissionError`. -/
theorem c1_validate_path_containment (fs : Fs) (cfg : Config)
    (p : List String) (w : Bool) :
    (∀ r, validate_path fs cfg p w = Except.ok r →
      ∃ root perm, (root, perm) ∈ cfg.allowed_paths ∧ root <+: r)
    ∧ (∀ req, resolveIntent fs p w = Except.ok req →
      (∀ rp ∈ cfg.allowed_paths, ¬ rp.1 <+: req) →
      validate_path fs cfg p w =
        Except.error (Err.permissionError PermReason.outsideAllowed)) := by
  constructor
  · intro r h
    unfold validate_path at h
    split at h
    · simp at h
    · obtain ⟨hr, d, pm, hmem, hpre⟩ := checkRoots_ok _ _ _ _ h
      exact ⟨d, pm, hmem, (isPrefixSeg_iff d r).mp hpre⟩
  · intro req hri hout
    unfold validate_path
    rw [hri]
    show checkRoots cfg.allowed_paths req w = _
    rw [checkRoots_eq_find]
    have hnone : cfg.allowed_paths.find? (fun x => isPrefixSeg x.1 req) = none := by
      rw [List.find?_eq_none]
      exact fun x hx hc => hout x hx ((isPrefixSeg_iff _ _).mp hc)
    rw [hnone]

/-- Witness for C1: reading `/srv/data/b.txt` is returned inside the
configured root `/srv/data`, and `/etc/passwd` (which resolves outside
every root) is refused as outside the allowed directories. -/
theorem c1_witness :
    (∃ root perm, (root, perm) ∈ cfgA.allowed_paths ∧
      root <+: ["srv", "data", "b.txt"])
    ∧ validate_path fsA cfgA ["etc", "passwd"] false =
      Except.error (Err.permissionError PermReason.outsideAllowed) :=
  ⟨(c1_validate_path_containment fsA cfgA ["srv", "data", "b.txt"] false).1
      ["srv", "data", "b.txt"] (by rfl),
   (c1_validate_path_containment fsA cfgA ["etc", "passwd"] false).2
      ["etc", "passwd"] (by rfl) (by decide)⟩

/-- C2: the containment loop is characterised by `List.find?` over the
roots in configuration order — no match yields the outside-denied error,
and the first matching root alone determines the outcome (its permission is
the one enforced); containment itself is pure segment comparison: a root's
segments being a prefix of the resolved path's segments, i.e. equality or
descendance. -/
theorem c2_first_match_wins (roots : List (List String × Perm))
    (req : List String) (w : Bool) :
    (roots.find? (fun x => isPrefixSeg x.1 req) = none →
      checkRoots roots req w =
        Except.error (Err.permissionError PermReason.outsideAllowed))
    ∧ (∀ d pm, roots.find? (fun x => isPrefixSeg x.1 req) = some (d, pm) →
      checkRoots roots req w =
        if w && decide (pm = Perm.ro) then
          Except.error (Err.permissionError PermReason.readOnlyRoot)
        else Except.ok req)
    ∧ (∀ d : List String, isPrefixSeg d req = true ↔
        (d = req ∨ ∃ s, s ≠ [] ∧ req = d ++ s)) := by
  refine ⟨?_, ?_, ?_⟩
  · intro hf; rw [checkRoots_eq_find, hf]
  · intro d pm hf; rw [checkRoots_eq_find, hf]
  · intro d; rw [isPrefixSeg_iff, prefix_iff_eq_or_descendant]

/-- Witness for C2: with the nested roots `/n` (ro, first) and `/n/sub`
(rw, second), a write under `/n/sub` is denied because the first matching
root in configuration order is the read-only `/n`; and a path outside every
root falls through to the outside-denied error. -/
theorem c2_witness :
    checkRoots cfgNested.allowed_paths ["n", "sub", "x.txt"] true =
      Except.error (Err.permissionError PermReason.readOnlyRoot)
    ∧ checkRoots cfgA.allowed_paths ["etc"] false =
      Except.error (Err.permissionError PermReason.outsideAllowed) := by
  constructor
  · have h := (c2_first_match_wins cfgNested.allowed_paths
      ["n", "sub", "x.txt"] true).2.1 ["n"] Perm.ro (by rfl)
    simpa using h
  · exact (c2_first_match_wins cfgA.allowed_paths ["etc"] false).1 (by rfl)

/-- C3: write-intent resolution applies exactly three rules in order: if
the full path exists it is fully resolved; else if its (lexical) parent
directory exists, the parent is fully resolved and the final component
(`path_obj.name`, i.e. `lastName`) is re-appended verbatim; else the path
is resolved best-effort. -/
theorem c3_write_resolution_order (fs : Fs) (p : List String) :
    (existsFs fs p = true →
      ∃ r, resolvePath fs p = some r ∧ resolveWrite fs p = Except.ok r)
    ∧ (existsFs fs p = false → existsFs fs p.dropLast = true →
      ∃ rp, resolvePath fs p.dropLast = some rp ∧
        resolveWrite fs p = Except.ok (rp ++ [lastName p]))
    ∧ (existsFs fs p = false → existsFs fs p.dropLast = false →
      resolveWrite fs p =
        (match resolvePath fs p with
         | none => Except.error Err.symlinkLoop
         | some r => Except.ok r)) := by
  refine ⟨?_, ?_, ?_⟩
  · intro hex
    obtain ⟨r, hr⟩ := existsFs_resolve fs p hex
    refine ⟨r, hr, ?_⟩
    unfold resolveWrite
    rw [if_pos hex, hr]
  · intro hex hpar
    obtain ⟨rp, hrp⟩ := existsFs_resolve fs p.dropLast hpar
    refine ⟨rp, hrp, ?_⟩
    unfold resolveWrite
    rw [if_neg (by simp [hex]), if_pos hpar, hrp]
  · intro hex hpar
    unfold resolveWrite
    rw [if_neg (by simp [hex]), if_neg (by simp [hpar])]

/-- Witness for C3: an existing file resolves fully; a new file under an
existing parent gets the resolved parent plus its verbatim name; a new file
under a missing parent falls to best-effort resolution. -/
theorem c3_witness :
    (∃ r, resolvePath fsA ["srv", "data", "b.txt"] = some r ∧
      resolveWrite fsA ["srv", "data", "b.txt"] = Except.ok r)
    ∧ (∃ rp, resolvePath fsA ["srv", "data"] = some rp ∧
      resolveWrite fsA ["srv", "data", "new.txt"] =
        Except.ok (rp ++ [lastName ["srv", "data", "new.txt"]]))
    ∧ resolveWrite fsA ["srv", "data", "nodir", "new.txt"] =
      (match resolvePath fsA ["srv", "data", "nodir", "new.txt"] with
       | none => Except.error Err.symlinkLoop
       | some r => Except.ok r) :=
  ⟨(c3_write_resolution_order fsA ["srv", "data", "b.txt"]).1 (by rfl),
   (c3_write_resolution_order fsA ["srv", "data", "new.txt"]).2.1
     (by rfl) (by rfl),
   (c3_write_resolution_order fsA ["srv", "data", "nodir", "new.txt"]).2.2
     (by rfl) (by rfl)⟩

/-- C4: a write whose resolved target is contained in a root configured
read-only (the first matching root in configuration order) fails with the
read-only `PermissionError` and leaves the filesystem unchanged: the denial
happens in `validate_path`, before the mkdir and write steps. -/
theorem c4_readonly_write_denied (fs : Fs) (cfg : Config) (p : List String)
    (content : List Nat) (req : List String) (d : List String)
    (hres : resolveWrite fs p = Except.ok req)
    (hfind : cfg.allowed_paths.find? (fun x => isPrefixSeg x.1 req) =
      some (d, Perm.ro)) :
    write_file fs cfg p content =
      (fs, Except.error (Err.permissionError PermReason.readOnlyRoot)) := by
  have hval : validate_path fs cfg p true =
      Except.error (Err.permissionError PermReason.readOnlyRoot) := by
    unfold validate_path
    have hri : resolveIntent fs p true = Except.ok req := by
      unfold resolveIntent; rw [if_pos rfl]; exact hres
    rw [hri]
    show checkRoots cfg.allowed_paths req true = _
    rw [checkRoots_eq_find, hfind]
    simp
  unfold write_file
  rw [hval]

/-- Witness for C4: writing `/pub/x.txt` under the read-only root `/pub`
is denied and the filesystem value is returned unchanged. -/
theorem c4_witness :
    write_file fsRO cfgRO ["pub", "x.txt"] [97] =
      (fsRO, Except.error (Err.permissionError PermReason.readOnlyRoot)) :=
  c4_readonly_write_denied fsRO cfgRO ["pub", "x.txt"] [97]
    ["pub", "x.txt"] ["pub"] (by rfl) (by rfl)

/-- C5: under a configured limit of `n` bytes, a payload of exactly `n`
bytes passes the size check for both read (stat size) and write (encoded
byte length), a payload of `n + 1` bytes fails with the too-large error,
and with no limit configured every size passes; both operations apply the
same `sizeCheckFails` threshold comparison. -/
theorem c5_size_threshold (fs : Fs) (cfg : Config) (p : List String)
    (fp : List String) (bytes content : List Nat) (n : Nat) :
    (cfg.max_file_size_bytes = some n → 0 < n →
      validate_path fs cfg p false = Except.ok fp →
      resolvePath fs fp = some fp →
      lookupFs fs fp = some (NodeKind.file bytes) →
      bytes.length = n →
      read_file fs cfg p = (match decodeUtf8 bytes with
        | some cs => Except.ok cs
        | none => Except.error Err.valueNotText))
    ∧ (cfg.max_file_size_bytes = some n → 0 < n →
      validate_path fs cfg p false = Except.ok fp →
      resolvePath fs fp = some fp →
      lookupFs fs fp = some (NodeKind.file bytes) →
      bytes.length = n + 1 →
      read_file fs cfg p = Except.error Err.valueTooLarge)
    ∧ (cfg.max_file_size_bytes = some n → 0 < n →
      validate_path fs cfg p true = Except.ok fp →
      (encodeUtf8 content).length = n →
      (write_file fs cfg p content).2 ≠ Except.error Err.valueTooLarge)
    ∧ (cfg.max_file_size_bytes = some n → 0 < n →
      validate_path fs cfg p true = Except.ok fp →
      (encodeUtf8 content).length = n + 1 →
      write_file fs cfg p content = (fs, Except.error Err.valueTooLarge))
    ∧ (cfg.max_file_size_bytes = none →
      read_file fs cfg p ≠ Except.error Err.valueTooLarge
      ∧ (write_file fs cfg p content).2 ≠ Except.error Err.valueTooLarge) := by
  refine ⟨?_, ?_, ?_, ?_, ?_⟩
  · intro hn _ hval hres hlk hlen
    rw [read_file_of_file fs cfg p fp bytes hval hres hlk, hn, hlen,
      sizeCheckFails_some_le n n (le_refl n)]
    simp
  · intro hn hpos hval hres hlk hlen
    rw [read_file_of_file fs cfg p fp bytes hval hres hlk, hn, hlen,
      sizeCheckFails_some_gt n (n + 1) (Nat.pos_iff_ne_zero.mp hpos)
        (Nat.lt_succ_self n)]
    simp
  · intro hn _ hval hlen
    have hsz : sizeCheckFails cfg.max_file_size_bytes
        (encodeUtf8 content).length = false := by
      rw [hn, hlen]; exact sizeCheckFails_some_le n n (le_refl n)
    rcases write_file_outcomes fs cfg p content fp hval hsz with
      h | h | h | h <;> rw [h] <;> simp
  · intro hn hpos hval hlen
    have hsz : sizeCheckFails cfg.max_file_size_bytes
        (encodeUtf8 content).length = true := by
      rw [hn, hlen]
      exact sizeCheckFails_some_gt n (n + 1) (Nat.pos_iff_ne_zero.mp hpos)
        (Nat.lt_succ_self n)
    unfold write_file
    rw [hval]
    simp [hsz]
  · intro hnone
    constructor
    · intro hc
      obtain ⟨fp', bytes', _, _, hszf⟩ := read_file_tooLarge_inv fs cfg p hc
      rw [hnone] at hszf
      simp [sizeCheckFails] at hszf
    · exact write_file_ne_tooLarge fs cfg p content
        (fun m => by rw [hnone]; rfl)

/-- Witness for C5: with a 2-byte limit, the 2-byte file `b.txt` passes
the read size check, the 3-byte `big.bin` fails too-large; a 2-byte write
payload passes, a 3-byte one fails leaving the filesystem unchanged; with
no limit the 3-byte read and write are never refused as too large. -/
theorem c5_witness :
    read_file fsA cfgA ["srv", "data", "b.txt"] =
      (match decodeUtf8 [104, 105] with
        | some cs => Except.ok cs
        | none => Except.error Err.valueNotText)
    ∧ read_file fsA cfgA ["srv", "data", "big.bin"] =
      Except.error Err.valueTooLarge
    ∧ (write_file fsA cfgA ["srv", "data", "new.txt"] [97, 98]).2 ≠
      Except.error Err.valueTooLarge
    ∧ write_file fsA cfgA ["srv", "data", "new.txt"] [97, 98, 99] =
      (fsA, Except.error Err.valueTooLarge)
    ∧ read_file fsA cfgU ["srv", "data", "big.bin"] ≠
      Except.error Err.valueTooLarge :=
  ⟨(c5_size_threshold fsA cfgA ["srv", "data", "b.txt"]
      ["srv", "data", "b.txt"] [104, 105] [] 2).1
      rfl (by decide) (by rfl) (by rfl) (by rfl) (by rfl),
   (c5_size_threshold fsA cfgA ["srv", "data", "big.bin"]
      ["srv", "data", "big.bin"] [255, 255, 255] [] 2).2.1
      rfl (by decide) (by rfl) (by rfl) (by rfl) (by rfl),
   (c5_size_threshold fsA cfgA ["srv", "data", "new.txt"]
      ["srv", "data", "new.txt"] [] [97, 98] 2).2.2.1
      rfl (by decide) (by rfl) (by rfl),
   (c5_size_threshold fsA cfgA ["srv", "data", "new.txt"]
      ["srv", "data", "new.txt"] [] [97, 98, 99] 2).2.2.2.1
      rfl (by decide) (by rfl) (by rfl),
   ((c5_size_threshold fsA cfgU ["srv", "data", "big.bin"]
      ["srv", "data", "big.bin"] [] [] 0).2.2.2.2 rfl).1⟩

/-- C8: for a readable file inside the allow-list, the size check is
applied before decoding: when the size check fails the result is the
too-large error regardless of whether the bytes decode, and the not-text
error can only arise when the size check passed and the bytes fail to
decode. -/
theorem c8_size_before_decode (fs : Fs) (cfg : Config) (p fp : List String)
    (bytes : List Nat)
    (hval : validate_path fs cfg p false = Except.ok fp)
    (hres : resolvePath fs fp = some fp)
    (hlk : lookupFs fs fp = some (NodeKind.file bytes)) :
    (sizeCheckFails cfg.max_file_size_bytes bytes.length = true →
      read_file fs cfg p = Except.error Err.valueTooLarge)
    ∧ (read_file fs cfg p = Except.error Err.valueNotText →
      sizeCheckFails cfg.max_file_size_bytes bytes.length = false ∧
      decodeUtf8 bytes = none) := by
  have heq := read_file_of_file fs cfg p fp bytes hval hres hlk
  constructor
  · intro hsz
    rw [heq, if_pos hsz]
  · intro hnt
    rw [heq] at hnt
    by_cases hsz : sizeCheckFails cfg.max_file_size_bytes bytes.length = true
    · rw [if_pos hsz] at hnt; simp at hnt
    · rw [if_neg hsz] at hnt
      refine ⟨by simpa using hsz, ?_⟩
      cases hd : decodeUtf8 bytes with
      | some cs => rw [hd] at hnt; simp at hnt
      | none => rfl

/-- Witness for C8: the 3-byte undecodable `big.bin` exceeds the 2-byte
limit and reads as too-large (not not-text); the 1-byte undecodable `bin1`
passes the size check and reads as not-text with `decodeUtf8` failing. -/
theorem c8_witness :
    read_file fsA cfgA ["srv", "data", "big.bin"] =
      Except.error Err.valueTooLarge
    ∧ (sizeCheckFails cfgA.max_file_size_bytes [(255 : Nat)].length = false ∧
      decodeUtf8 [255] = none) :=
  ⟨(c8_size_before_decode fsA cfgA ["srv", "data", "big.bin"]
      ["srv", "data", "big.bin"] [255, 255, 255] (by rfl) (by rfl) (by rfl)).1
      (by rfl),
   (c8_size_before_decode fsA cfgA ["srv", "data", "bin1"]
      ["srv", "data", "bin1"] [255] (by rfl) (by rfl) (by rfl)).2 (by rfl)⟩

/-- C9: a write whose encoded content fails the size check errors before
any filesystem mutation: the returned filesystem is exactly the input one
(in particular no missing parent directories are created, since the size
check precedes the mkdir step). -/
theorem c9_toolarge_write_unchanged (fs : Fs) (cfg : Config)
    (p : List String) (content : List Nat) (fp : List String)
    (hval : validate_path fs cfg p true = Except.ok fp)
    (hsz : sizeCheckFails cfg.max_file_size_bytes
      (encodeUtf8 content).length = true) :
    write_file fs cfg p content = (fs, Except.error Err.valueTooLarge) := by
  unfold write_file
  rw [hval]
  simp [hsz]

/-- Witness for C9: an over-limit write to `/srv/data/new/deep.txt`, whose
parent directory does not exist, fails too-large and returns the
filesystem unchanged — `new/` is not created. -/
theorem c9_witness :
    write_file fsA cfgA ["srv", "data", "new", "deep.txt"] [97, 98, 99] =
      (fsA, Except.error Err.valueTooLarge) :=
  c9_toolarge_write_unchanged fsA cfgA ["srv", "data", "new", "deep.txt"]
    [97, 98, 99] ["srv", "data", "new", "deep.txt"] (by rfl) (by rfl)

/-- C10: whenever `list_directory` succeeds, the returned `{name, type}`
entries are sorted in ascending order by name. -/
theorem c10_list_directory_sorted (fs : Fs) (cfg : Config)
    (p : List String) (entries : List (String × String))
    (h : list_directory fs cfg p = Except.ok entries) :
    List.Sorted (fun a b : String => a ≤ b) (entries.map Prod.fst) := by
  unfold list_directory at h
  split at h
  · simp at h
  · rename_i dp hval
    split at h
    · simp at h
    · split at h
      · simp at h
      · have he : entries = (sortedChildren fs dp).map (fun c =>
            (c.1, if isDirF fs (dp ++ [c.1]) then "dir" else "file")) := by
          simpa using h.symm
        subst he
        rw [List.map_map]
        have hs := List.sorted_insertionSort childLE (childPairs fs dp)
        exact List.Pairwise.map _ (fun a b hab => hab) hs

/-- Witness for C10: listing `/srv/data` yields names in ascending order. -/
theorem c10_witness :
    List.Sorted (fun a b : String => a ≤ b)
      (([("a", "dir"), ("b.txt", "file"), ("big.bin", "file"),
        ("bin1", "file")] : List (String × String)).map Prod.fst) :=
  c10_list_directory_sorted fsA cfgA ["srv", "data"]
    [("a", "dir"), ("b.txt", "file"), ("big.bin", "file"), ("bin1", "file")]
    (by decide)

theorem buildTreeGo_zero (fs : Fs) (p : List String) :
    buildTreeGo fs 0 p = TreeNode.mk (lastName p) "dir" none true none := rfl

theorem buildTreeGo_succ (fs : Fs) (k : Nat) (p : List String) :
    buildTreeGo fs (k + 1) p =
      TreeNode.mk (lastName p) "dir"
        (some ((sortedChildren fs p).filterMap
          (buildStep (fun n => buildTreeGo fs k (p ++ [n]))))) false none := rfl

theorem mem_buildTreeGo_children (fs : Fs) (k : Nat) (p : List String)
    (c : TreeNode)
    (h : c ∈ (sortedChildren fs p).filterMap
      (buildStep (fun n => buildTreeGo fs k (p ++ [n])))) :
    (c.type = "file" ∧ c.children = none ∧ c.truncated = false) ∨
    ∃ n, c = buildTreeGo fs k (p ++ [n]) := by
  rw [List.mem_filterMap] at h
  obtain ⟨a, _, hstep⟩ := h
  obtain ⟨nm, kind⟩ := a
  cases kind with
  | dir =>
    right
    refine ⟨nm, ?_⟩
    have := Option.some.inj hstep
    exact this.symm
  | file bs =>
    left
    have hc : TreeNode.mk nm "file" none false none = c :=
      Option.some.inj hstep
    rw [← hc]
    exact ⟨rfl, rfl, rfl⟩
  | symlink tgt => simp [buildStep] at hstep

/-- C6 as stated is false: with `max_depth = 1` the walk expands the root's
immediate subdirectory (`current_depth = 1` does not exceed `max_depth`);
on the concrete tree `/d` containing `/d/sub` containing `/d/sub/deep`,
the returned `sub` node carries a children list and `truncated = false` —
truncation only hits `deep`, two levels down. -/
theorem c6_counterexample :
    list_directory_tree fsC6 cfgC6 ["d"] 1 =
      Except.ok (TreeNode.mk "d" "dir" (some
        [TreeNode.mk "f.txt" "file" none false none,
         TreeNode.mk "sub" "dir" (some
           [TreeNode.mk "deep" "dir" none true none]) false none]) false none)
    ∧ (TreeNode.mk "sub" "dir" (some
        [TreeNode.mk "deep" "dir" none true none]) false none).truncated
          = false
    ∧ (TreeNode.mk "sub" "dir" (some
        [TreeNode.mk "deep" "dir" none true none]) false none).children
          ≠ none :=
  ⟨rfl, rfl, by simp [TreeNode.children]⟩

/-- C6 amended: a tree walk with `max_depth = 1` on a directory expands the
root and each immediate subdirectory (those nodes have a children list and
`truncated = false`); it is the directories two levels below the root —
the children of an immediate subdirectory — that are returned marked
`truncated = true` with no children field, because truncation applies at
`current_depth > max_depth` and the root is walked at depth 0. -/
theorem c6_amended_truncation_depth (fs : Fs) (cfg : Config)
    (p : List String) (t : TreeNode)
    (h : list_directory_tree fs cfg p 1 = Except.ok t) :
    t.truncated = false ∧ ∃ cs, t.children = some cs ∧
      ∀ c ∈ cs, c.type = "dir" →
        c.truncated = false ∧ ∃ gs, c.children = some gs ∧
          ∀ g ∈ gs, g.type = "dir" →
            g.truncated = true ∧ g.children = none := by
  unfold list_directory_tree at h
  split at h
  · simp at h
  · rename_i dp hval
    split at h
    · simp at h
    · split at h
      · simp at h
      · have ht : t = build_tree fs (clampDepth 1) dp 0 := by simpa using h.symm
        subst ht
        have hc : clampDepth 1 = 1 := by decide
        rw [hc]
        show (buildTreeGo fs 2 dp).truncated = false ∧ _
        rw [buildTreeGo_succ]
        refine ⟨rfl, _, rfl, ?_⟩
        intro c hmem hdir
        rcases mem_buildTreeGo_children fs 1 dp c hmem with ⟨hf, _, _⟩ | ⟨n, hcn⟩
        · rw [hdir] at hf; simp at hf
        · subst hcn
          rw [buildTreeGo_succ]
          refine ⟨rfl, _, rfl, ?_⟩
          intro g hg hgdir
          rcases mem_buildTreeGo_children fs 0 (dp ++ [n]) g hg with
            ⟨hf, _, _⟩ | ⟨m, hgn⟩
          · rw [hgdir] at hf; simp at hf
          · subst hgn
            rw [buildTreeGo_zero]
            exact ⟨rfl, rfl⟩

/-- Witness for the amended C6 on the concrete tree `/d`: the immediate
subdirectory is expanded and only the grandchild directory is truncated. -/
theorem c6_amended_witness :
    (TreeNode.mk "d" "dir" (some
      [TreeNode.mk "f.txt" "file" none false none,
       TreeNode.mk "sub" "dir" (some
         [TreeNode.mk "deep" "dir" none true none]) false none]) false
           none).truncated = false
    ∧ ∃ cs, (TreeNode.mk "d" "dir" (some
      [TreeNode.mk "f.txt" "file" none false none,
       TreeNode.mk "sub" "dir" (some
         [TreeNode.mk "deep" "dir" none true none]) false none]) false
           none).children = some cs ∧
      ∀ c ∈ cs, c.type = "dir" →
        c.truncated = false ∧ ∃ gs, c.children = some gs ∧
          ∀ g ∈ gs, g.type = "dir" →
            g.truncated = true ∧ g.children = none :=
  c6_amended_truncation_depth fsC6 cfgC6 ["d"]
    (TreeNode.mk "d" "dir" (some
      [TreeNode.mk "f.txt" "file" none false none,
       TreeNode.mk "sub" "dir" (some
         [TreeNode.mk "deep" "dir" none true none]) false none]) false none)
    (by rfl)

theorem orderedInsert_cons_eq (c b : String × NodeKind)
    (bs : List (String × NodeKind)) :
    List.orderedInsert childLE c (b :: bs) =
      if childLE c b then c :: b :: bs
      else b :: List.orderedInsert childLE c bs := rfl

theorem orderedInsert_of_forall (c : String × NodeKind)
    (l : List (String × NodeKind)) (h : ∀ b ∈ l, childLE c b) :
    List.orderedInsert childLE c l = c :: l := by
  cases l with
  | nil => rfl
  | cons b bs =>
    rw [orderedInsert_cons_eq, if_pos (h b (List.mem_cons_self b bs))]

theorem filter_orderedInsert (q : (String × NodeKind) → Bool)
    (c : String × NodeKind) (l : List (String × NodeKind))
    (hs : l.Sorted childLE) :
    (List.orderedInsert childLE c l).filter q =
      if q c then List.orderedInsert childLE c (l.filter q)
      else l.filter q := by
  induction l with
  | nil =>
    by_cases hq : q c = true
    · rw [if_pos hq]
      simp [List.filter_cons, hq]
    · rw [if_neg hq]
      simp [List.filter_cons, hq]
  | cons b bs ih =>
    obtain ⟨hb, hs'⟩ := List.sorted_cons.mp hs
    by_cases hcb : childLE c b
    · rw [orderedInsert_cons_eq, if_pos hcb]
      by_cases hq : q c = true
      · rw [if_pos hq, List.filter_cons, if_pos hq]
        refine (orderedInsert_of_forall c _ (fun x hx => ?_)).symm
        rcases List.mem_cons.mp (List.mem_of_mem_filter hx) with rfl | hxs
        · exact hcb
        · exact le_trans hcb (hb x hxs)
      · rw [if_neg hq, List.filter_cons, if_neg hq]
    · rw [orderedInsert_cons_eq, if_neg hcb]
      by_cases hqb : q b = true
      · rw [List.filter_cons, if_pos hqb, ih hs']
        by_cases hq : q c = true
        · rw [if_pos hq, if_pos hq, List.filter_cons, if_pos hqb,
            orderedInsert_cons_eq, if_neg hcb]
        · rw [if_neg hq, if_neg hq, List.filter_cons, if_pos hqb]
      · rw [List.filter_cons, if_neg hqb, ih hs']
        by_cases hq : q c = true
        · rw [if_pos hq, if_pos hq, List.filter_cons, if_neg hqb]
        · rw [if_neg hq, if_neg hq, List.filter_cons, if_neg hqb]

theorem filter_insertionSort (q : (String × NodeKind) → Bool)
    (l : List (String × NodeKind)) :
    (List.insertionSort childLE l).filter q =
      List.insertionSort childLE (l.filter q) := by
  induction l with
  | nil => rfl
  | cons a l ih =>
    show (List.orderedInsert childLE a (List.insertionSort childLE l)).filter q = _
    rw [filter_orderedInsert q a _ (List.sorted_insertionSort childLE _)]
    by_cases hq : q a = true
    · rw [if_pos hq, ih, List.filter_cons, if_pos hq]
      rfl
    · rw [if_neg hq, ih, List.filter_cons, if_neg hq]

@[simp] theorem isSymlinkKind_dir : isSymlinkKind NodeKind.dir = false := rfl

@[simp] theorem isSymlinkKind_file (bs : List Nat) :
    isSymlinkKind (NodeKind.file bs) = false := rfl

@[simp] theorem isSymlinkKind_symlink (t : List String) :
    isSymlinkKind (NodeKind.symlink t) = true := rfl

@[simp] theorem buildStep_dir (sub : String → TreeNode) (nm : String) :
    buildStep sub (nm, NodeKind.dir) = some (sub nm) := rfl

@[simp] theorem buildStep_file (sub : String → TreeNode) (nm : String)
    (bs : List Nat) :
    buildStep sub (nm, NodeKind.file bs) =
      some (TreeNode.mk nm "file" none false none) := rfl

@[simp] theorem buildStep_symlink (sub : String → TreeNode) (nm : String)
    (t : List String) :
    buildStep sub (nm, NodeKind.symlink t) = none := rfl

theorem childPairs_erase (fs : Fs) (p : List String) :
    childPairs (eraseSymlinks fs) p =
      (childPairs fs p).filter (fun c => !isSymlinkKind c.2) := by
  unfold childPairs eraseSymlinks
  induction fs with
  | nil => rfl
  | cons e fs ih =>
    obtain ⟨qq, kind⟩ := e
    simp only [ne_eq] at ih ⊢
    by_cases hcond : (¬ qq = [] ∧ qq.dropLast = p)
    · cases kind <;> simp [List.filter_cons, List.filterMap_cons, hcond, ih]
    · cases kind <;> simp [List.filter_cons, List.filterMap_cons, hcond, ih]

theorem filterMap_buildStep_filter (sub : String → TreeNode)
    (l : List (String × NodeKind)) :
    (l.filter (fun c => !isSymlinkKind c.2)).filterMap (buildStep sub) =
      l.filterMap (buildStep sub) := by
  induction l with
  | nil => rfl
  | cons a l ih =>
    obtain ⟨nm, kind⟩ := a
    cases kind <;> simp [List.filter_cons, List.filterMap_cons, ih]

theorem sortedChildren_erase (fs : Fs) (p : List String) :
    sortedChildren (eraseSymlinks fs) p =
      (sortedChildren fs p).filter (fun c => !isSymlinkKind c.2) := by
  unfold sortedChildren
  rw [childPairs_erase, ← filter_insertionSort]

theorem buildTreeGo_erase (fs : Fs) : ∀ (k : Nat) (p : List String),
    buildTreeGo (eraseSymlinks fs) k p = buildTreeGo fs k p := by
  intro k
  induction k with
  | zero => intro p; rfl
  | succ k ih =>
    intro p
    rw [buildTreeGo_succ, buildTreeGo_succ]
    have hchildren :
        (sortedChildren (eraseSymlinks fs) p).filterMap
          (buildStep (fun n => buildTreeGo (eraseSymlinks fs) k (p ++ [n]))) =
        (sortedChildren fs p).filterMap
          (buildStep (fun n => buildTreeGo fs k (p ++ [n]))) := by
      rw [sortedChildren_erase, filterMap_buildStep_filter]
      refine List.filterMap_congr (fun a _ => ?_)
      obtain ⟨nm, kind⟩ := a
      cases kind with
      | dir => simp only [buildStep]; rw [ih]
      | file bs => rfl
      | symlink tgt => rfl
    rw [hchildren]

theorem listHeight_le (l : List TreeNode) (m : Nat)
    (h : ∀ t ∈ l, nodeHeight t ≤ m) : listHeight l ≤ m := by
  induction l with
  | nil => simp [listHeight]
  | cons t ts ih =>
    simp only [listHeight]
    exact Nat.max_le.mpr ⟨h t (List.mem_cons_self t ts),
      ih (fun x hx => h x (List.mem_cons_of_mem t hx))⟩

theorem nodeHeight_buildTreeGo (fs : Fs) : ∀ (k : Nat) (p : List String),
    nodeHeight (buildTreeGo fs k p) ≤ k + 1 := by
  intro k
  induction k with
  | zero =>
    intro p
    rw [buildTreeGo_zero]
    simp [nodeHeight, childrenHeight]
  | succ k ih =>
    intro p
    rw [buildTreeGo_succ]
    simp only [nodeHeight, childrenHeight]
    have hcs : listHeight ((sortedChildren fs p).filterMap
        (buildStep (fun n => buildTreeGo fs k (p ++ [n])))) ≤ k + 1 := by
      apply listHeight_le
      intro t ht
      rcases mem_buildTreeGo_children fs k p t ht with ⟨_, hch, _⟩ | ⟨n, rfl⟩
      · cases t with
        | mk nm ty cs tr er =>
          simp only [TreeNode.children] at hch
          subst hch
          simp [nodeHeight, childrenHeight]
      · exact ih (p ++ [n])
    omega

theorem clampDepth_bounds (md : Int) :
    1 ≤ clampDepth md ∧ clampDepth md ≤ 10 := by
  unfold clampDepth
  constructor
  · omega
  · omega

/-- C7: the recursive tree walk never lists and never recurses into a
symlink entry — its output over any filesystem equals its output over the
filesystem with every symlink entry deleted, so symlink cycles back to an
ancestor are invisible to it — and the walk is total with output height
bounded by the clamped `max_depth` (which lies in `[1, 10]`) plus the root
and one truncated level. -/
theorem c7_symlinks_skipped_and_bounded (fs : Fs) (md : Nat)
    (p : List String) (d : Nat) (mdi : Int) :
    build_tree fs md p d = build_tree (eraseSymlinks fs) md p d
    ∧ nodeHeight (build_tree fs (clampDepth mdi) p 0) ≤ clampDepth mdi + 2
    ∧ 1 ≤ clampDepth mdi ∧ clampDepth mdi ≤ 10 := by
  refine ⟨?_, ?_, (clampDepth_bounds mdi).1, (clampDepth_bounds mdi).2⟩
  · unfold build_tree
    exact (buildTreeGo_erase fs _ p).symm
  · unfold build_tree
    have h := nodeHeight_buildTreeGo fs (clampDepth mdi + 1 - 0) p
    simp only [Nat.sub_zero] at *
    omega

end FilesMCP
